import Mathlib

/-!
# pokecache: a time-based cache

Shallow embedding of `pokecache/cache.go`.

* Clock readings and durations are integers (nanoseconds).  `time.Now()` is an
  explicit argument `now` of every operation that reads the clock, and
  `time.Since(t)` is `now - t`.  Readings of Go's monotonic clock are
  non-negative 63-bit quantities, so the subtraction never saturates.
* `[]byte` is `Option (List UInt8)`; `none` is the `nil` slice.
* `map[string]CacheEntry` is an association list with pairwise distinct keys.
* The mutex does not appear in the sequential operations; the lock and map
  accesses of every method are recorded separately as action lists.
* `cleanupDone` is the flag "the channel has been closed".
-/

namespace pokecache

/-- A `[]byte`; `none` is the `nil` slice. -/
abbrev Bytes := Option (List UInt8)

/-- The struct `CacheEntry`. -/
structure CacheEntry where
  createdAt : Int
  val : Bytes
deriving DecidableEq, Repr

/-- The type `map[string]CacheEntry`. -/
abbrev Store := AList (fun _ : String => CacheEntry)

/-- The struct `Cache` without its mutex; `cleanupDone` is true once the channel is closed. -/
structure Cache where
  data : Store
  expiration : Int
  cleanupDone : Bool
deriving DecidableEq

/-- `NewCache`: an empty map, the given expiration, an open channel.  The goroutine it
starts is `CleanupExpiredEntries` below. -/
def NewCache (expiration : Int) : Cache :=
  { data := ∅, expiration := expiration, cleanupDone := false }

/-- `Cache.Add`, called when the clock reads `now`. -/
def Cache.Add (c : Cache) (now : Int) (key : String) (value : Bytes) : Cache :=
  { c with data := c.data.insert key { createdAt := now, val := value } }

/-- `Cache.Get`, called when the clock reads `now`: the returned pair and the cache afterwards. -/
def Cache.Get (c : Cache) (now : Int) (key : String) : (Bytes × Bool) × Cache :=
  match c.data.lookup key with
  | none => ((none, false), c)
  | some entry =>
    if now - entry.createdAt > c.expiration then
      ((none, false), { c with data := c.data.erase key })
    else
      ((entry.val, true), c)

/-- `Cache.Delete`. -/
def Cache.Delete (c : Cache) (key : String) : Cache :=
  { c with data := c.data.erase key }

/-- Body of the `range` loop in `CleanupExpiredEntries` for one visited entry. -/
def cleanupVisit (expiration now : Int) (m : Store) (kv : Sigma (fun _ : String => CacheEntry)) :
    Store :=
  if now - kv.2.createdAt > expiration then m.erase kv.1 else m

/-- One `case <-ticker.C` of `CleanupExpiredEntries`: the `range` loop over the map, run
with the exclusive lock held while the clock reads `now`. -/
def Cache.cleanupTick (c : Cache) (now : Int) : Cache :=
  { c with data := c.data.entries.foldl (cleanupVisit c.expiration now) c.data }

/-- What a caller or the ticker does to the cache at one instant. -/
inductive Event where
  | add (key : String) (value : Bytes)
  | get (key : String)
  | delete (key : String)
  | tick
deriving DecidableEq, Repr

/-- Whether the event is a call on `key`; a tick is a call on no key. -/
def Event.onKey (key : String) : Event → Bool
  | .add k _ => k == key
  | .get k => k == key
  | .delete k => k == key
  | .tick => false

/-- Whether the event is one of the calls `Add`, `Get`, `Delete`. -/
def Event.isCall : Event → Bool
  | .tick => false
  | _ => true

/-- Whether the event is `Add` on `key`. -/
def Event.isAddOn (key : String) : Event → Bool
  | .add k _ => k == key
  | _ => false

/-- One event at clock reading `now`: the cache afterwards and what `Get` returned, if the
event was a `Get`. -/
def step (c : Cache) (now : Int) : Event → Cache × Option (Bytes × Bool)
  | .add key value => (c.Add now key value, none)
  | .get key => ((c.Get now key).2, some (c.Get now key).1)
  | .delete key => (c.Delete key, none)
  | .tick => (c.cleanupTick now, none)

/-- A sequence of timed events, in order: the final cache and the results of the `Get`s. -/
def run (c : Cache) : List (Int × Event) → Cache × List (Bytes × Bool)
  | [] => (c, [])
  | (now, ev) :: rest =>
    let r := run (step c now ev).1 rest
    (r.1, (step c now ev).2.toList ++ r.2)

/-- The call `time.NewTicker(d)` of the standard library: it panics when `d <= 0`, and
otherwise returns a ticker of period `d`. -/
def NewTicker (d : Int) : Except String Int :=
  if d ≤ 0 then .error "non-positive interval for NewTicker" else .ok d

/-- Which `case` of the `select` in `CleanupExpiredEntries` fires. -/
inductive Select where
  | tickerC (now : Int)
  | cleanupDone
deriving DecidableEq, Repr

/-- The `for { select { ... } }` loop of `CleanupExpiredEntries`, driven by the cases that
fire; when the list ends the goroutine is blocked in `select`. -/
def cleanupLoop (c : Cache) : List Select → Cache
  | [] => c
  | .tickerC now :: rest => cleanupLoop (c.cleanupTick now) rest
  | .cleanupDone :: _ => c

/-- `Cache.CleanupExpiredEntries`: create the ticker, then loop. -/
def Cache.CleanupExpiredEntries (c : Cache) (fired : List Select) : Except String Cache :=
  match NewTicker c.expiration with
  | .error e => .error e
  | .ok _ => .ok (cleanupLoop c fired)

/-- `Cache.Close`: `close(c.cleanupDone)`, which panics on a channel already closed. -/
def Cache.Close (c : Cache) : Except String Cache :=
  if c.cleanupDone then .error "close of closed channel"
  else .ok { c with cleanupDone := true }

/-- Lock operations and map accesses, as the methods perform them. -/
inductive Action where
  | Lock
  | Unlock
  | RLock
  | RUnlock
  | mapIndex (key : String)
  | mapAssign (key : String)
  | mapDelete (key : String)
  | mapRange
deriving DecidableEq, Repr

/-- Actions of `Cache.Add`. -/
def Cache.AddActions (_c : Cache) (_now : Int) (key : String) : List Action :=
  [.Lock, .mapAssign key, .Unlock]

/-- Actions of `Cache.Get`; the deferred `RUnlock` runs last on every path. -/
def Cache.GetActions (c : Cache) (now : Int) (key : String) : List Action :=
  [.RLock, .mapIndex key] ++
    (match c.data.lookup key with
      | none => []
      | some entry => if now - entry.createdAt > c.expiration then [.mapDelete key] else []) ++
    [.RUnlock]

/-- Actions of `Cache.Delete`. -/
def Cache.DeleteActions (_c : Cache) (key : String) : List Action :=
  [.Lock, .mapDelete key, .Unlock]

/-- Actions of one `case <-ticker.C` of `CleanupExpiredEntries`. -/
def Cache.cleanupTickActions (c : Cache) (now : Int) : List Action :=
  [.Lock, .mapRange] ++
    ((c.data.entries.filter (fun kv => now - kv.2.createdAt > c.expiration)).map
      (fun kv => Action.mapDelete kv.1)) ++
    [.Unlock]

/-- How the caller holds the `sync.RWMutex`. -/
inductive Held where
  | unlocked
  | shared
  | exclusive
deriving DecidableEq, Repr

/-- Whether the action changes the map. -/
def Action.mutates : Action → Bool
  | .mapAssign _ => true
  | .mapDelete _ => true
  | _ => false

/-- Whether every action that changes the map is performed with the exclusive lock held,
starting from the lock state `h`. -/
def mutatesOnlyExclusive : Held → List Action → Bool
  | _, [] => true
  | _, .Lock :: rest => mutatesOnlyExclusive .exclusive rest
  | _, .RLock :: rest => mutatesOnlyExclusive .shared rest
  | _, .Unlock :: rest => mutatesOnlyExclusive .unlocked rest
  | _, .RUnlock :: rest => mutatesOnlyExclusive .unlocked rest
  | h, a :: rest => (!a.mutates || h == .exclusive) && mutatesOnlyExclusive h rest

/-- A cache of expiration 5 holding `"a"` inserted at time 0 and `"b"` inserted at time 8. -/
def sampleCache : Cache :=
  ((NewCache 5).Add 0 "a" (some [120])).Add 8 "b" (some [121, 122])

end pokecache

/-! # Paging through location areas

Shallow embedding of `UpdateOffsets`, `GetCurrentOffset` and `FetchLocationAreas` of
`pokeapi/pokeapi.go` and of `commandMap` and `commandMapBack` of `command.go`.

* The package variable `currentOffset`, the `Config` that `main` hands to every command and
  the package variable `cache` are the fields of `Session`.  `currentOffset` is an integer;
  the 64-bit range of Go's `int` is not reached by the runs considered here.
* A `*string` is `Option String`; `none` is the nil pointer.
* The HTTP request with the decoding of its body, `json.Marshal` and `json.Unmarshal` are
  parameters, collected in `World`.
* A command returns the session afterwards and either its error or the lines it prints.
-/

namespace pokeapi

/-- The struct `Config`. -/
structure Config where
  Next : Option String
  Previous : Option String
deriving DecidableEq, Repr

/-- The struct `LocationArea`. -/
structure LocationArea where
  Name : String
deriving DecidableEq, Repr

/-- The string `fmt.Sprintf("https://pokeapi.co/api/v2/location-area?limit=20&offset=%d", n)`. -/
def locationAreaURL (n : Int) : String :=
  "https://pokeapi.co/api/v2/location-area?limit=20&offset=" ++ toString n

/-- `FetchLocationAreas`: the result and the `Config` afterwards; `httpGet` is `http.Get` on
the URL followed by the decoding of the `results` of the body. -/
def FetchLocationAreas (httpGet : String → Except String (List LocationArea))
    (config : Config) : Except String (List LocationArea) × Config :=
  let config1 : Config :=
    if config.Next = none then
      { config with Next := some "https://pokeapi.co/api/v2/location-area?limit=20&offset=0" }
    else config
  match config1.Next with
  | none => (.error "no more pages available", config1)
  | some url => (httpGet url, config1)

/-- `UpdateOffsets`: the package variable `currentOffset` and the `Config` afterwards. -/
def UpdateOffsets (currentOffset : Int) (config : Config) (forward : Bool) : Int × Config :=
  let offset1 := if forward then currentOffset + 20 else currentOffset - 40
  if offset1 < 0 then
    (20, { config with Next := none })
  else
    (offset1, { config with Next := some (locationAreaURL offset1) })

/-- `GetCurrentOffset`. -/
def GetCurrentOffset (currentOffset : Int) (_config : Config) : Int :=
  currentOffset

end pokeapi

namespace pokedexgo

open pokecache pokeapi

/-- What the commands use from outside the program. -/
structure World where
  httpGet : String → Except String (List LocationArea)
  Marshal : List LocationArea → Except String Bytes
  Unmarshal : Bytes → Except String (List LocationArea)

/-- The state shared by the commands: `pokeapi.currentOffset`, the `Config` created in
`main`, and the package variable `cache`. -/
structure Session where
  currentOffset : Int
  config : Config
  cache : Cache

/-- The state in which `main` enters its command loop: `currentOffset` is 0, the `Config` is
`&pokeapi.Config{}` and the cache is `NewCache(5 * time.Minute)`. -/
def initialSession : Session :=
  { currentOffset := 0, config := { Next := none, Previous := none },
    cache := NewCache 300000000000 }

/-- The string `fmt.Sprintf("locationAreas_%d", n)`. -/
def locationAreasKey (n : Int) : String :=
  "locationAreas_" ++ toString n

/-- The session after `pokeapi.UpdateOffsets(config, forward)`. -/
def Session.UpdateOffsets (s : Session) (forward : Bool) : Session :=
  { s with currentOffset := (pokeapi.UpdateOffsets s.currentOffset s.config forward).1,
           config := (pokeapi.UpdateOffsets s.currentOffset s.config forward).2 }

/-- `commandMap`; `cache.Get` reads the clock at `now` and `cache.Add` at `later`. -/
def commandMap (w : World) (now later : Int) (s : Session) :
    Session × Except String (List String) :=
  let cacheKey := locationAreasKey (GetCurrentOffset s.currentOffset s.config)
  let got := s.cache.Get now cacheKey
  let s1 : Session := { s with cache := got.2 }
  if got.1.2 then
    match w.Unmarshal got.1.1 with
    | .error err => (s1, .error err)
    | .ok locationAreas =>
      (s1.UpdateOffsets true, .ok (locationAreas.map (fun area => area.Name)))
  else
    let fetched := FetchLocationAreas w.httpGet s1.config
    let s2 : Session := { s1 with config := fetched.2 }
    match fetched.1 with
    | .error err => (s2, .error err)
    | .ok locationAreas =>
      match w.Marshal locationAreas with
      | .error marshalErr => (s2, .error marshalErr)
      | .ok serializedLocationAreas =>
        let s3 : Session := { s2 with cache := s2.cache.Add later cacheKey serializedLocationAreas }
        (s3.UpdateOffsets true, .ok (locationAreas.map (fun area => area.Name)))

/-- `commandMapBack`. -/
def commandMapBack (w : World) (now later : Int) (s : Session) :
    Session × Except String (List String) :=
  let s1 := s.UpdateOffsets false
  if s1.config.Next = none then
    (s1, .error "already on the first page")
  else
    commandMap w now later s1

/-- The commands `map` and `mapb` typed at the prompt. -/
inductive Command where
  | map
  | mapb
deriving DecidableEq, Repr

/-- The callback of a command, run with the clock readings `now` and `later`. -/
def Command.callback (w : World) (now later : Int) (s : Session) : Command → Session
  | .map => (commandMap w now later s).1
  | .mapb => (commandMapBack w now later s).1

/-- The session after a sequence of commands, each with its two clock readings. -/
def runCommands (w : World) (s : Session) : List (Int × Int × Command) → Session
  | [] => s
  | (now, later, cmd) :: rest => runCommands w (cmd.callback w now later s) rest

/-- The URL that `FetchLocationAreas` requests in session `s`, read off a server that answers
every request with one area named after the requested URL. -/
def requestedURL (s : Session) : Except String (List LocationArea) :=
  (FetchLocationAreas (fun url => .ok [{ Name := url }]) s.config).1

/-- A world whose server answers every request with one area named after the requested URL,
and whose JSON encoding of a list of areas is the bytes of their names, each followed by a
line feed. -/
def echoWorld : World :=
  { httpGet := fun url => .ok [{ Name := url }],
    Marshal := fun areas =>
      .ok (some ((String.join (areas.map (fun area => area.Name ++ "\n"))).toUTF8.toList)),
    Unmarshal := fun bytes =>
      match bytes with
      | none => .error "unexpected end of JSON input"
      | some bs =>
        .ok (((String.mk (bs.map (fun b => Char.ofNat b.toNat))).splitOn "\n").dropLast.map
          (fun name => { Name := name })) }

/-- The session after `map` and then `mapb` typed at the start of the program. -/
def sessionAfterMapMapb : Session :=
  runCommands echoWorld initialSession [(1, 2, Command.map), (3, 4, Command.mapb)]

end pokedexgo

namespace pokecache

/-! ## The map after `Add`, `Get` and `Delete` -/

theorem lookup_Add_self (c : Cache) (now : Int) (key : String) (value : Bytes) :
    (c.Add now key value).data.lookup key = some { createdAt := now, val := value } := by
  simp [Cache.Add]

theorem lookup_Add_ne (c : Cache) (now : Int) (value : Bytes) {k key : String} (h : k ≠ key) :
    (c.Add now key value).data.lookup k = c.data.lookup k := by
  simp [Cache.Add, AList.lookup_insert_ne h]

theorem lookup_Delete_self (c : Cache) (key : String) :
    (c.Delete key).data.lookup key = none := by
  simp [Cache.Delete]

theorem lookup_Delete_ne (c : Cache) {k key : String} (h : k ≠ key) :
    (c.Delete key).data.lookup k = c.data.lookup k := by
  simp [Cache.Delete, AList.lookup_erase_ne h]

theorem Get_of_lookup_none {c : Cache} {key : String} (now : Int)
    (h : c.data.lookup key = none) : c.Get now key = ((none, false), c) := by
  simp [Cache.Get, h]

theorem Get_of_fresh {c : Cache} {key : String} {e : CacheEntry} {now : Int}
    (h : c.data.lookup key = some e) (hf : now - e.createdAt ≤ c.expiration) :
    c.Get now key = ((e.val, true), c) := by
  simp [Cache.Get, h, not_lt.mpr hf]

theorem Get_of_stale {c : Cache} {key : String} {e : CacheEntry} {now : Int}
    (h : c.data.lookup key = some e) (hs : now - e.createdAt > c.expiration) :
    c.Get now key = ((none, false), { c with data := c.data.erase key }) := by
  simp [Cache.Get, h, hs]

theorem Get_expiration (c : Cache) (now : Int) (key : String) :
    (c.Get now key).2.expiration = c.expiration := by
  unfold Cache.Get
  split
  · rfl
  · split <;> rfl

theorem lookup_Get_ne (c : Cache) (now : Int) {k key : String} (h : k ≠ key) :
    (c.Get now key).2.data.lookup k = c.data.lookup k := by
  unfold Cache.Get
  split
  · rfl
  · split
    · simp [AList.lookup_erase_ne h]
    · rfl

/-- `Get` on `key` leaves the entry of `key` in place or removes it. -/
theorem lookup_Get_self (c : Cache) (now : Int) (key : String) :
    (c.Get now key).2.data.lookup key = none ∨
      (c.Get now key).2.data.lookup key = c.data.lookup key := by
  unfold Cache.Get
  split
  · exact Or.inr rfl
  · split
    · exact Or.inl (by simp)
    · exact Or.inr rfl

/-! ## The map after a sweep -/

theorem lookup_foldl_cleanupVisit_none (expiration now : Int) (k : String)
    (l : List (Sigma (fun _ : String => CacheEntry))) (m : Store)
    (h : m.lookup k = none) : (l.foldl (cleanupVisit expiration now) m).lookup k = none := by
  induction l generalizing m with
  | nil => simpa using h
  | cons kv l ih =>
    rw [List.foldl_cons]
    apply ih
    unfold cleanupVisit
    split
    · by_cases hk : k = kv.1
      · subst hk; simp
      · rw [AList.lookup_erase_ne hk]; exact h
    · exact h

theorem lookup_foldl_cleanupVisit_keep (expiration now : Int) (k : String)
    (l : List (Sigma (fun _ : String => CacheEntry))) (m : Store)
    (h : ∀ kv ∈ l, kv.1 = k → now - kv.2.createdAt ≤ expiration) :
    (l.foldl (cleanupVisit expiration now) m).lookup k = m.lookup k := by
  induction l generalizing m with
  | nil => rfl
  | cons kv l ih =>
    rw [List.foldl_cons, ih _ (fun kv' hkv' => h kv' (List.mem_cons_of_mem _ hkv'))]
    unfold cleanupVisit
    split
    · rename_i hs
      have hk : k ≠ kv.1 := fun hk =>
        absurd (h kv (List.mem_cons_self _ _) hk.symm) (not_le.mpr hs)
      exact AList.lookup_erase_ne hk
    · rfl

theorem lookup_foldl_cleanupVisit_drop (expiration now : Int) (k : String)
    (l : List (Sigma (fun _ : String => CacheEntry))) (m : Store)
    (h : ∃ kv ∈ l, kv.1 = k ∧ now - kv.2.createdAt > expiration) :
    (l.foldl (cleanupVisit expiration now) m).lookup k = none := by
  induction l generalizing m with
  | nil => simp at h
  | cons kv l ih =>
    rw [List.foldl_cons]
    obtain ⟨kv', hmem, hk, hs⟩ := h
    rcases List.mem_cons.mp hmem with heq | hin
    · subst heq
      apply lookup_foldl_cleanupVisit_none
      subst hk
      simp [cleanupVisit, hs]
    · exact ih _ ⟨kv', hin, hk, hs⟩

/-- After a sweep at `now`, an entry is in the map exactly when it was there before and
its age is at most the expiration. -/
theorem lookup_cleanupTick (c : Cache) (now : Int) (k : String) (e : CacheEntry) :
    (c.cleanupTick now).data.lookup k = some e ↔
      c.data.lookup k = some e ∧ now - e.createdAt ≤ c.expiration := by
  show (c.data.entries.foldl (cleanupVisit c.expiration now) c.data).lookup k = some e ↔ _
  cases h0 : c.data.lookup k with
  | none =>
    rw [lookup_foldl_cleanupVisit_none _ _ _ _ _ h0]
    simp
  | some e0 =>
    have hmem : Sigma.mk k e0 ∈ c.data.entries := AList.mem_lookup_iff.mp (by simp [h0])
    by_cases hs : now - e0.createdAt > c.expiration
    · rw [lookup_foldl_cleanupVisit_drop _ _ _ _ _ ⟨_, hmem, rfl, hs⟩]
      constructor
      · intro h; cases h
      · rintro ⟨h1, h2⟩
        cases h1
        exact absurd h2 (not_le.mpr hs)
    · rw [lookup_foldl_cleanupVisit_keep, h0]
      · constructor
        · intro h
          cases h
          exact ⟨rfl, not_lt.mp hs⟩
        · exact fun h => h.1
      · rintro ⟨k', e'⟩ hkv hk
        have hk' : k' = k := hk
        subst hk'
        have h1 : c.data.lookup k' = some e' := by
          have := AList.mem_lookup_iff.mpr hkv
          simpa using this
        rw [h0] at h1
        cases h1
        exact not_lt.mp hs

theorem cleanupTick_expiration (c : Cache) (now : Int) :
    (c.cleanupTick now).expiration = c.expiration := rfl

end pokecache

namespace pokecache

/-! ## Sequences of events -/

theorem lookup_cleanupTick_shrinks (c : Cache) (now : Int) (k : String) :
    (c.cleanupTick now).data.lookup k = none ∨
      (c.cleanupTick now).data.lookup k = c.data.lookup k := by
  cases h : (c.cleanupTick now).data.lookup k with
  | none => exact Or.inl rfl
  | some e => exact Or.inr ((lookup_cleanupTick c now k e).mp h).1.symm

theorem step_expiration (c : Cache) (now : Int) (ev : Event) :
    (step c now ev).1.expiration = c.expiration := by
  cases ev with
  | add key value => rfl
  | get key => exact Get_expiration c now key
  | delete key => rfl
  | tick => rfl

/-- An event other than `Add` on `k` leaves the entry of `k` in place or removes it. -/
theorem step_lookup_shrinks (c : Cache) (now : Int) (k : String) (ev : Event)
    (h : ev.isAddOn k = false) :
    (step c now ev).1.data.lookup k = none ∨
      (step c now ev).1.data.lookup k = c.data.lookup k := by
  cases ev with
  | add key value =>
    have hk : k ≠ key := fun hk => by simp [Event.isAddOn, hk] at h
    exact Or.inr (lookup_Add_ne c now value hk)
  | get key =>
    by_cases hk : k = key
    · subst hk; exact lookup_Get_self c now k
    · exact Or.inr (lookup_Get_ne c now hk)
  | delete key =>
    by_cases hk : k = key
    · subst hk; exact Or.inl (lookup_Delete_self c k)
    · exact Or.inr (lookup_Delete_ne c hk)
  | tick => exact lookup_cleanupTick_shrinks c now k

/-- An event that is not a call on `k`, at a time when the entry of `k` is fresh, leaves
that entry as it is. -/
theorem step_lookup_keep (c : Cache) (now : Int) (k : String) (e : CacheEntry) (ev : Event)
    (h : ev.onKey k = false) (hk : c.data.lookup k = some e)
    (hf : now - e.createdAt ≤ c.expiration) :
    (step c now ev).1.data.lookup k = some e := by
  cases ev with
  | add key value =>
    have hne : k ≠ key := fun hne => by simp [Event.onKey, hne] at h
    exact (lookup_Add_ne c now value hne).trans hk
  | get key =>
    have hne : k ≠ key := fun hne => by simp [Event.onKey, hne] at h
    exact (lookup_Get_ne c now hne).trans hk
  | delete key =>
    have hne : k ≠ key := fun hne => by simp [Event.onKey, hne] at h
    exact (lookup_Delete_ne c hne).trans hk
  | tick => exact (lookup_cleanupTick c now k e).mpr ⟨hk, hf⟩

theorem run_expiration (c : Cache) (evs : List (Int × Event)) :
    (run c evs).1.expiration = c.expiration := by
  induction evs generalizing c with
  | nil => rfl
  | cons ev rest ih =>
    obtain ⟨now, ev⟩ := ev
    show (run (step c now ev).1 rest).1.expiration = _
    rw [ih, step_expiration]

theorem run_lookup_keep (c : Cache) (k : String) (e : CacheEntry) (evs : List (Int × Event))
    (hk : c.data.lookup k = some e)
    (hev : ∀ ev ∈ evs, ev.1 - e.createdAt ≤ c.expiration ∧ ev.2.onKey k = false) :
    (run c evs).1.data.lookup k = some e := by
  induction evs generalizing c with
  | nil => exact hk
  | cons ev rest ih =>
    obtain ⟨now, ev⟩ := ev
    show (run (step c now ev).1 rest).1.data.lookup k = some e
    have h0 := hev (now, ev) (List.mem_cons_self _ _)
    apply ih
    · exact step_lookup_keep c now k e ev h0.2 hk h0.1
    · intro ev' hev'
      rw [step_expiration]
      exact hev ev' (List.mem_cons_of_mem _ hev')

theorem run_lookup_shrinks (c : Cache) (k : String) (evs : List (Int × Event))
    (hev : ∀ ev ∈ evs, ev.2.isAddOn k = false) :
    (run c evs).1.data.lookup k = none ∨ (run c evs).1.data.lookup k = c.data.lookup k := by
  induction evs generalizing c with
  | nil => exact Or.inr rfl
  | cons ev rest ih =>
    obtain ⟨now, ev⟩ := ev
    show (run (step c now ev).1 rest).1.data.lookup k = none ∨
      (run (step c now ev).1 rest).1.data.lookup k = _
    rcases ih (step c now ev).1 (fun ev' hev' => hev ev' (List.mem_cons_of_mem _ hev')) with
      h | h
    · exact Or.inl h
    · rcases step_lookup_shrinks c now k ev (hev (now, ev) (List.mem_cons_self _ _)) with
        h' | h'
      · exact Or.inl (h.trans h')
      · exact Or.inr (h.trans h')

/-- Events do not read the `cleanupDone` flag and do not change it. -/
theorem step_cleanupDone (c : Cache) (b : Bool) (now : Int) (ev : Event) :
    step { c with cleanupDone := b } now ev =
      ({ (step c now ev).1 with cleanupDone := b }, (step c now ev).2) := by
  cases ev with
  | add key value => rfl
  | get key =>
    simp only [step, Cache.Get]
    split
    · rfl
    · split <;> rfl
  | delete key => rfl
  | tick => rfl

theorem run_cleanupDone (c : Cache) (b : Bool) (evs : List (Int × Event)) :
    run { c with cleanupDone := b } evs =
      ({ (run c evs).1 with cleanupDone := b }, (run c evs).2) := by
  induction evs generalizing c with
  | nil => rfl
  | cons ev rest ih =>
    obtain ⟨now, ev⟩ := ev
    simp only [run]
    rw [step_cleanupDone, ih]

/-! ## The claims -/

/-- C1. Round-trip freshness: after `Add(k, v)` at time `t`, any calls on other keys and any
sweep ticks, all at times at most `t'`, a `Get(k)` at time `t'` with `t' - t` at most the
expiration (the boundary included) returns `(v, true)`. -/
theorem C1_round_trip_freshness (c : Cache) (k : String) (v : Bytes) (t t' : Int)
    (evs : List (Int × Event)) (hd : t' - t ≤ c.expiration)
    (hev : ∀ ev ∈ evs, ev.1 ≤ t' ∧ ev.2.onKey k = false) :
    ((run (c.Add t k v) evs).1.Get t' k).1 = (v, true) := by
  have hk := run_lookup_keep (c.Add t k v) k { createdAt := t, val := v } evs
    (lookup_Add_self c t k v)
    (fun ev h => ⟨by
      have h1 := (hev ev h).1
      show ev.1 - t ≤ c.expiration
      omega, (hev ev h).2⟩)
  rw [Get_of_fresh hk (by rw [run_expiration]; exact hd)]

/-- Witness of C1, at the boundary `t' - t = expiration`, with a sweep, calls on other keys
and a lazy expiry of another key in between. -/
theorem C1_round_trip_freshness_witness :
    (15 : Int) - 10 ≤ sampleCache.expiration ∧
    (∀ ev ∈ [((11 : Int), Event.tick), (12, Event.add "z" none), (13, Event.get "a"),
        (15, Event.delete "b"), (15, Event.tick)], ev.1 ≤ 15 ∧ ev.2.onKey "k" = false) ∧
    ((run (sampleCache.Add 10 "k" (some [7]))
        [((11 : Int), Event.tick), (12, Event.add "z" none), (13, Event.get "a"),
          (15, Event.delete "b"), (15, Event.tick)]).1.Get 15 "k").1 = (some [7], true) :=
  ⟨by decide, by decide, C1_round_trip_freshness sampleCache "k" (some [7]) 10 15 _
    (by decide) (by decide)⟩

/-- C2. `Get` never returns stale data: if the last `Add(k, .)` happened at `t0`, then
whatever calls and sweep ticks followed, `Get(k)` at a time `t1` with `t1 - t0` above the
expiration returns `(nil, false)`; and whenever `Get` returns `found = true`, the value is
that of an entry of the map whose age is at most the expiration. -/
theorem C2_get_never_stale (c : Cache) (k : String) (v : Bytes) (t0 t1 : Int)
    (evs : List (Int × Event)) (hd : t1 - t0 > c.expiration)
    (hev : ∀ ev ∈ evs, ev.2.isAddOn k = false) :
    ((run (c.Add t0 k v) evs).1.Get t1 k).1 = (none, false) ∧
    ∀ (c' : Cache) (now : Int) (key : String) (val : Bytes),
      (c'.Get now key).1 = (val, true) →
        ∃ e, c'.data.lookup key = some e ∧ e.val = val ∧ now - e.createdAt ≤ c'.expiration := by
  constructor
  · rcases run_lookup_shrinks (c.Add t0 k v) k evs hev with h | h
    · rw [Get_of_lookup_none t1 h]
    · rw [lookup_Add_self] at h
      rw [Get_of_stale h (by rw [run_expiration]; exact hd)]
  · intro c' now key val h
    unfold Cache.Get at h
    split at h
    · simp at h
    · rename_i e he
      split at h
      · simp at h
      · rename_i hf
        exact ⟨e, he, by simpa using congrArg (fun p => p.1) h, not_lt.mp hf⟩

/-- Witness of C2: no sweep tick at all between the `Add` and the late `Get`. -/
theorem C2_get_never_stale_witness :
    (16 : Int) - 10 > sampleCache.expiration ∧
    (∀ ev ∈ [((12 : Int), Event.get "k"), (13, Event.add "z" none)],
      ev.2.isAddOn "k" = false) ∧
    ((run (sampleCache.Add 10 "k" (some [7]))
        [((12 : Int), Event.get "k"), (13, Event.add "z" none)]).1.Get 16 "k").1
      = (none, false) :=
  ⟨by decide, by decide, (C2_get_never_stale sampleCache "k" (some [7]) 10 16 _
    (by decide) (by decide)).1⟩

/-- C3. Delete is authoritative: `Add(k, v)` at `t0`, then `Delete(k)`, then `Get(k)` at any
time `t2` returns `(nil, false)`, whatever the cache and its expiration. -/
theorem C3_delete_authoritative (c : Cache) (k : String) (v : Bytes) (t0 t2 : Int) :
    (((c.Add t0 k v).Delete k).Get t2 k).1 = (none, false) := by
  rw [Get_of_lookup_none t2 (lookup_Delete_self _ k)]

/-- C4. Re-inserting replaces the whole entry: after `Add(k, v1)` at `t1` and `Add(k, v2)`
at `t2`, a `Get(k)` at `t3` with `t3 - t2` at most the expiration returns `(v2, true)`,
however old the first insertion is; the map holds one entry for `k`, created at `t2`. -/
theorem C4_reinsert_replaces (c : Cache) (k : String) (v1 v2 : Bytes) (t1 t2 t3 : Int)
    (hd : t3 - t2 ≤ c.expiration) :
    (((c.Add t1 k v1).Add t2 k v2).Get t3 k).1 = (v2, true) ∧
    ((c.Add t1 k v1).Add t2 k v2).data.lookup k = some { createdAt := t2, val := v2 } ∧
    ((c.Add t1 k v1).Add t2 k v2).data.keys.count k = 1 ∧
    ∀ e : CacheEntry, Sigma.mk k e ∈ ((c.Add t1 k v1).Add t2 k v2).data.entries →
      e = { createdAt := t2, val := v2 } := by
  have hl := lookup_Add_self (c.Add t1 k v1) t2 k v2
  refine ⟨?_, hl, ?_, ?_⟩
  · rw [Get_of_fresh hl hd]
  · apply List.count_eq_one_of_mem (AList.keys_nodup _)
    rw [← AList.mem_keys]
    simp [Cache.Add]
  · intro e he
    have h := AList.mem_lookup_iff.mpr he
    rw [hl] at h
    simpa using h.symm

/-- Witness of C4: the second insertion is fresh at the read, the first one is not. -/
theorem C4_reinsert_replaces_witness :
    (12 : Int) - 8 ≤ sampleCache.expiration ∧ (12 : Int) - 1 > sampleCache.expiration ∧
    (((sampleCache.Add 1 "a" (some [1])).Add 8 "a" (some [2])).Get 12 "a").1
      = (some [2], true) :=
  ⟨by decide, by decide,
    (C4_reinsert_replaces sampleCache "a" (some [1]) (some [2]) 1 8 12 (by decide)).1⟩

/-- C5. A sweep tick at `now` removes exactly the stale entries: the entries of the map
after the tick are those entries of the map before it whose age `now - createdAt` is at most
the expiration, with value and `createdAt` as they were; the expiration and the channel are
left alone. -/
theorem C5_sweep_removes_exactly_stale (c : Cache) (now : Int) :
    (∀ kv : Sigma (fun _ : String => CacheEntry),
      kv ∈ (c.cleanupTick now).data.entries ↔
        kv ∈ c.data.entries ∧ now - kv.2.createdAt ≤ c.expiration) ∧
    (c.cleanupTick now).expiration = c.expiration ∧
    (c.cleanupTick now).cleanupDone = c.cleanupDone := by
  refine ⟨?_, rfl, rfl⟩
  rintro ⟨k, e⟩
  rw [← AList.mem_lookup_iff, ← AList.mem_lookup_iff]
  exact lookup_cleanupTick c now k e

/-- C6. Absence: a cache returned by `NewCache` has no entries, so `Get` finds nothing in
it; and in any cache, `Get` on a key without an entry returns `(nil, false)` and leaves the
cache as it was. -/
theorem C6_absence (d : Int) (c : Cache) (k : String) (now : Int)
    (h : c.data.lookup k = none) :
    (NewCache d).data.entries = [] ∧
    (NewCache d).Get now k = ((none, false), NewCache d) ∧
    c.Get now k = ((none, false), c) :=
  ⟨rfl, Get_of_lookup_none now (AList.lookup_empty k), Get_of_lookup_none now h⟩

/-- Witness of C6: the key `"c"` has no entry in `sampleCache`. -/
theorem C6_absence_witness :
    sampleCache.data.lookup "c" = none ∧
    sampleCache.Get 3 "c" = ((none, false), sampleCache) :=
  ⟨by decide, (C6_absence 5 sampleCache "c" 3 (by decide)).2.2⟩

/-- C7. Shutdown leaves the store usable: on a cache whose channel is open `Close` returns,
and the cache it leaves has the same map and expiration; every subsequent sequence of
events returns the same `Get` results and ends in the same map as without `Close`, and a
fresh entry is still returned by `Get`. -/
theorem C7_close_keeps_store (c : Cache) (evs : List (Int × Event))
    (hopen : c.cleanupDone = false) :
    ∃ c', c.Close = .ok c' ∧ c'.data = c.data ∧ c'.expiration = c.expiration ∧
      (run c' evs).2 = (run c evs).2 ∧ (run c' evs).1.data = (run c evs).1.data ∧
      ∀ (k : String) (e : CacheEntry) (now : Int), c.data.lookup k = some e →
        now - e.createdAt ≤ c.expiration → (c'.Get now k).1 = (e.val, true) := by
  refine ⟨{ c with cleanupDone := true }, by simp [Cache.Close, hopen], rfl, rfl, ?_, ?_, ?_⟩
  · rw [run_cleanupDone]
  · rw [run_cleanupDone]
  · intro k e now hk hf
    have hk' : ({ c with cleanupDone := true } : Cache).data.lookup k = some e := hk
    rw [Get_of_fresh hk' hf]

/-- Witness of C7: `sampleCache` has an open channel. -/
theorem C7_close_keeps_store_witness :
    sampleCache.cleanupDone = false ∧
    ∃ c', sampleCache.Close = .ok c' ∧ c'.data = sampleCache.data ∧
      c'.expiration = sampleCache.expiration ∧
      (run c' [((9 : Int), Event.get "b"), (9, Event.get "a"), (9, Event.delete "b")]).2 =
        (run sampleCache
          [((9 : Int), Event.get "b"), (9, Event.get "a"), (9, Event.delete "b")]).2 :=
  ⟨rfl, by
    obtain ⟨c', h1, h2, h3, h4, _⟩ := C7_close_keeps_store sampleCache
      [((9 : Int), Event.get "b"), (9, Event.get "a"), (9, Event.delete "b")] rfl
    exact ⟨c', h1, h2, h3, h4⟩⟩

/-- C8, as the claim states it, fails: `NewCache(0)` returns a cache, with no entries and
expiration 0, on which `Add` followed at once by `Get` returns the value. -/
theorem C8_counterexample :
    (NewCache 0).data.entries = [] ∧ (NewCache 0).expiration = 0 ∧
    (((NewCache 0).Add 3 "a" (some [120])).Get 3 "a").1 = (some [120], true) := by
  decide

/-- C8, amended. `NewCache` validates nothing: for every expiration, zero and negative ones
included, it returns a cache with no entries, that expiration and an open channel, on which
`Add` followed at once by `Get` returns the value when the expiration is not negative and
`(nil, false)` when it is.  A non-positive expiration is rejected only in the goroutine that
`NewCache` starts, where `time.NewTicker` panics. -/
theorem C8_newcache_validates_nothing (d : Int) (fired : List Select) (t : Int) (k : String)
    (v : Bytes) :
    NewCache d = { data := ∅, expiration := d, cleanupDone := false } ∧
    (((NewCache d).Add t k v).Get t k).1 = (if d < 0 then (none, false) else (v, true)) ∧
    (NewCache d).CleanupExpiredEntries fired =
      (if d ≤ 0 then .error "non-positive interval for NewTicker"
        else .ok (cleanupLoop (NewCache d) fired)) := by
  refine ⟨rfl, ?_, ?_⟩
  · have hl := lookup_Add_self (NewCache d) t k v
    by_cases hd : d < 0
    · rw [if_pos hd, Get_of_stale hl (by show t - t > d; omega)]
    · rw [if_neg hd, Get_of_fresh hl (by show t - t ≤ d; omega)]
  · by_cases hd : d ≤ 0
    · simp [Cache.CleanupExpiredEntries, NewTicker, NewCache, hd]
    · simp [Cache.CleanupExpiredEntries, NewTicker, NewCache, hd]

/-- C9 fails on the code: `Get` on a stale entry deletes from the map between `RLock` and
`RUnlock`, that is with the shared lock only, while `Add`, `Delete` and the sweep change the
map between `Lock` and `Unlock`. -/
theorem C9_get_deletes_under_shared_lock :
    sampleCache.GetActions 10 "a" =
      [Action.RLock, Action.mapIndex "a", Action.mapDelete "a", Action.RUnlock] ∧
    mutatesOnlyExclusive Held.unlocked (sampleCache.GetActions 10 "a") = false ∧
    mutatesOnlyExclusive Held.unlocked (sampleCache.AddActions 10 "a") = true ∧
    mutatesOnlyExclusive Held.unlocked (sampleCache.DeleteActions "a") = true ∧
    mutatesOnlyExclusive Held.unlocked (sampleCache.cleanupTickActions 10) = true := by
  decide

/-- C10. Lazy expiry removes exactly the stale key: when the entry of `k` is stale at `now`,
`Get(k)` returns `(nil, false)` and leaves the map with `k` erased, every other key keeping
its entry; when the entry of `k` is fresh, `Get(k)` leaves the cache as it was. -/
theorem C10_lazy_expiry_frame (c : Cache) (k : String) (e : CacheEntry) (now : Int)
    (hk : c.data.lookup k = some e) :
    (now - e.createdAt > c.expiration →
      (c.Get now k).1 = (none, false) ∧
      (c.Get now k).2.data = c.data.erase k ∧
      (c.Get now k).2.data.lookup k = none ∧
      (∀ k', k' ≠ k → (c.Get now k).2.data.lookup k' = c.data.lookup k') ∧
      (c.Get now k).2.expiration = c.expiration) ∧
    (now - e.createdAt ≤ c.expiration → c.Get now k = ((e.val, true), c)) := by
  constructor
  · intro hs
    rw [Get_of_stale hk hs]
    exact ⟨rfl, rfl, AList.lookup_erase k c.data,
      fun k' hne => AList.lookup_erase_ne hne, rfl⟩
  · exact fun hf => Get_of_fresh hk hf

/-- Witness of C10: at time 10 the entry of `"a"` in `sampleCache` is stale and the entry of
`"b"` is fresh. -/
theorem C10_lazy_expiry_frame_witness :
    sampleCache.data.lookup "a" = some { createdAt := 0, val := some [120] } ∧
    (sampleCache.Get 10 "a").1 = (none, false) ∧
    (sampleCache.Get 10 "a").2.data.lookup "a" = none ∧
    (sampleCache.Get 10 "a").2.data.lookup "b" = sampleCache.data.lookup "b" :=
  ⟨by decide,
    ((C10_lazy_expiry_frame sampleCache "a" { createdAt := 0, val := some [120] } 10
      (by decide)).1 (by decide)).1,
    ((C10_lazy_expiry_frame sampleCache "a" { createdAt := 0, val := some [120] } 10
      (by decide)).1 (by decide)).2.2.1,
    ((C10_lazy_expiry_frame sampleCache "a" { createdAt := 0, val := some [120] } 10
      (by decide)).1 (by decide)).2.2.2.1 "b" (by decide)⟩

end pokecache

namespace pokecache

/-! ## Deleting, and sweeping before a read -/

theorem erase_of_lookup_none (m : Store) (k : String) (h : m.lookup k = none) :
    m.erase k = m := by
  apply AList.ext
  have hk : k ∉ m.keys := by
    rw [← AList.mem_keys]
    exact AList.lookup_eq_none.mp h
  simp [AList.erase, List.kerase_of_not_mem_keys hk]

theorem Delete_of_lookup_none (c : Cache) (k : String) (h : c.data.lookup k = none) :
    c.Delete k = c := by
  unfold Cache.Delete
  rw [erase_of_lookup_none c.data k h]

/-- C11. `Delete(k)` leaves the previous map with `k` erased: its entries are the previous
entries under the other keys; on a key without an entry it changes nothing, and a second
`Delete(k)` changes nothing more. -/
theorem C11_delete_noop_idempotent (c : Cache) (k : String) :
    (∀ kv : Sigma (fun _ : String => CacheEntry),
      kv ∈ (c.Delete k).data.entries ↔ kv ∈ c.data.entries ∧ kv.1 ≠ k) ∧
    (c.Delete k).data.lookup k = none ∧
    (c.Delete k).expiration = c.expiration ∧
    (c.data.lookup k = none → c.Delete k = c) ∧
    (c.Delete k).Delete k = c.Delete k := by
  refine ⟨?_, lookup_Delete_self c k, rfl, Delete_of_lookup_none c k,
    Delete_of_lookup_none _ k (lookup_Delete_self c k)⟩
  rintro ⟨k', e⟩
  rw [← AList.mem_lookup_iff, ← AList.mem_lookup_iff]
  by_cases hk : k' = k
  · subst hk
    constructor
    · intro h
      rw [lookup_Delete_self] at h
      cases h
    · exact fun h => absurd rfl h.2
  · rw [lookup_Delete_ne c hk]
    exact ⟨fun h => ⟨h, hk⟩, fun h => h.1⟩

/-- Witness of C11: `"c"` has no entry in `sampleCache`, and deleting it changes nothing. -/
theorem C11_delete_noop_idempotent_witness :
    sampleCache.data.lookup "c" = none ∧ sampleCache.Delete "c" = sampleCache :=
  ⟨by decide, (C11_delete_noop_idempotent sampleCache "c").2.2.2.1 (by decide)⟩

/-- C13. The sweep is not observable through `Get`: a sweep tick at time `t` does not change
what `Get(k)` returns at any time `t'` from `t` on. -/
theorem C13_sweep_unobservable (c : Cache) (k : String) (t t' : Int) (h : t ≤ t') :
    ((c.cleanupTick t).Get t' k).1 = (c.Get t' k).1 := by
  cases h0 : c.data.lookup k with
  | none =>
    have h1 : (c.cleanupTick t).data.lookup k = none := by
      rcases lookup_cleanupTick_shrinks c t k with h1 | h1
      · exact h1
      · rw [h1, h0]
    rw [Get_of_lookup_none t' h1, Get_of_lookup_none t' h0]
  | some e =>
    by_cases hs : t - e.createdAt ≤ c.expiration
    · have h1 := (lookup_cleanupTick c t k e).mpr ⟨h0, hs⟩
      by_cases hs' : t' - e.createdAt ≤ c.expiration
      · rw [Get_of_fresh h1 (by rw [cleanupTick_expiration]; exact hs'), Get_of_fresh h0 hs']
      · rw [Get_of_stale h1 (by rw [cleanupTick_expiration]; exact not_le.mp hs'),
          Get_of_stale h0 (not_le.mp hs')]
    · have h1 : (c.cleanupTick t).data.lookup k = none := by
        cases h2 : (c.cleanupTick t).data.lookup k with
        | none => rfl
        | some e' =>
          have h3 := (lookup_cleanupTick c t k e').mp h2
          rw [h0] at h3
          have h4 : e = e' := by simpa using h3.1
          subst h4
          exact absurd h3.2 hs
      have hs' : t' - e.createdAt > c.expiration := by
        have := not_le.mp hs
        omega
      rw [Get_of_lookup_none t' h1, Get_of_stale h0 hs']

/-- Witness of C13: the sweep at time 6 removes the stale `"a"` of `sampleCache`, and `Get`
at time 10 returns `(nil, false)` with and without it. -/
theorem C13_sweep_unobservable_witness :
    (6 : Int) ≤ 10 ∧ (sampleCache.cleanupTick 6).data.lookup "a" = none ∧
    ((sampleCache.cleanupTick 6).Get 10 "a").1 = (sampleCache.Get 10 "a").1 :=
  ⟨by decide, by decide, C13_sweep_unobservable sampleCache "a" 6 10 (by decide)⟩

end pokecache

namespace pokedexgo

open pokecache pokeapi

/-! ## Paging -/

/-- Where `UpdateOffsets` does not clamp, the URL it leaves in `config.Next` is the one of
`currentOffset`. -/
theorem UpdateOffsets_Next_of_nonneg (currentOffset : Int) (config : Config) (forward : Bool)
    (h : 0 ≤ (if forward then currentOffset + 20 else currentOffset - 40)) :
    (UpdateOffsets currentOffset config forward).2.Next =
      some (locationAreaURL (UpdateOffsets currentOffset config forward).1) := by
  simp only [UpdateOffsets]
  rw [if_neg (not_lt.mpr h)]

/-- C12 fails on the code.  After `map` and then `mapb` at the start of the program,
`currentOffset` is 20 and `config.Next` is nil: the next `map` uses the key
`locationAreas_20`, while `FetchLocationAreas` requests the URL of offset 0, and the page of
offset 0 is stored in the cache under `locationAreas_20`. -/
theorem C12_page_stored_under_other_key :
    sessionAfterMapMapb.currentOffset = 20 ∧
    sessionAfterMapMapb.config.Next = none ∧
    locationAreasKey (GetCurrentOffset sessionAfterMapMapb.currentOffset
      sessionAfterMapMapb.config) = "locationAreas_20" ∧
    requestedURL sessionAfterMapMapb =
      .ok [{ Name := "https://pokeapi.co/api/v2/location-area?limit=20&offset=0" }] ∧
    locationAreaURL sessionAfterMapMapb.currentOffset =
      "https://pokeapi.co/api/v2/location-area?limit=20&offset=20" ∧
    ((commandMap echoWorld 5 6 sessionAfterMapMapb).1.cache.data.lookup
        "locationAreas_20").map (fun entry => (Except.ok entry.val : Except String Bytes)) =
      some (echoWorld.Marshal
        [{ Name := "https://pokeapi.co/api/v2/location-area?limit=20&offset=0" }]) := by
  refine ⟨by decide, by decide, by decide, rfl, by decide, rfl⟩

end pokedexgo
